import Mathlib

/-!
Shallow embedding of `src/nacl.c` (libdill's NaCl encrypted-socket layer).

Bytes are modelled as `Nat`, byte buffers as `List Nat`; a heap buffer that
may be NULL is `Option (List Nat)` (`none` = NULL pointer, `some l` = an
allocation of `l.length` bytes holding `l`).  External collaborators that are
out of scope per the specification (the tweetnacl primitive, the random
source, the handle table, the underlying message transport, `malloc`) enter
as explicit parameters/oracles of the embedded functions.  `size_t`
arithmetic that can wrap in C is computed over `Int` followed by `% 2 ^ 64`.
Undefined behaviour (out-of-bounds access, NULL dereference, walking off an
iolist) is made explicit as a `crash` outcome.
-/

/-- Constants of the tweetnacl secretbox primitive, as used by `src/nacl.c`. -/
def crypto_secretbox_KEYBYTES : Nat := 32

/-- Nonce size of the secretbox primitive (NONCE_SIZE in the spec). -/
def crypto_secretbox_NONCEBYTES : Nat := 24

/-- Leading zero bytes required on the plaintext side of the primitive. -/
def crypto_secretbox_ZEROBYTES : Nat := 32

/-- Leading zero bytes produced on the ciphertext side of the primitive. -/
def crypto_secretbox_BOXZEROBYTES : Nat := 16

/-- NACL_EXTRABYTES from `src/nacl.c` line 46: ZEROBYTES + NONCEBYTES = 56. -/
def NACL_EXTRABYTES : Nat := crypto_secretbox_ZEROBYTES + crypto_secretbox_NONCEBYTES

/-- Errno constants (Linux values; only used as distinct labels). -/
def EINVAL : Nat := 22

/-- Errno for allocation failure. -/
def ENOMEM : Nat := 12

/-- Errno set by a capability query for an unsupported type. -/
def ENOTSUP : Nat := 95

/-- Errno for an oversized inbound message. -/
def EMSGSIZE : Nat := 90

/-- Errno set on authentication failure (`src/nacl.c` line 203). -/
def EACCES : Nat := 13

/-- Errno for a transport deadline expiry. -/
def ETIMEDOUT : Nat := 110

/-- Errno for an invalid handle. -/
def EBADF : Nat := 9

/-- Errno used as an example propagated handle-table error. -/
def ENFILE : Nat := 23

/-- Bytes are naturals; values above 255 never arise on honest runs and
nothing in the embedded control flow depends on the bound. -/
abbrev Byte := Nat

/-- Modelled from the spec: the authentication tag of the external
secretbox primitive (§6: `seal(plaintext, key, nonce) → ciphertext`).  The
primitive itself is out of scope (§1) and is "treated as a correct,
already-implemented building block", so any concrete executable function of
the payload, nonce and key serves as its tag. -/
def naclTag (payload nonce key : List Byte) : List Byte :=
  List.replicate crypto_secretbox_BOXZEROBYTES
    ((payload.sum + 2 * nonce.sum + 3 * key.sum + payload.length) % 256)

/-- Modelled from the spec: the external authenticated-encryption primitive
(tweetnacl `crypto_secretbox`, not part of this repository).  C-API
convention, as relied upon by `src/nacl.c`: the input message carries
ZEROBYTES leading zeros, and the output ciphertext of the same total length
carries BOXZEROBYTES leading zeros followed by the authentication tag and
the encrypted payload (§4.3 step 5: "a padded ciphertext (leading zero
region per the primitive's convention plus an authentication tag)"). -/
def crypto_secretbox (m nonce key : List Byte) : List Byte :=
  List.replicate crypto_secretbox_BOXZEROBYTES 0 ++
    naclTag (m.drop crypto_secretbox_ZEROBYTES) nonce key ++
    m.drop crypto_secretbox_ZEROBYTES

/-- Modelled from the spec: the external authenticated decryption
(tweetnacl `crypto_secretbox_open`, not part of this repository; §6:
`open(ciphertext, key, nonce) → plaintext | AuthFailure`).  Mirrors the
tweetnacl contract: inputs shorter than 32 bytes are rejected outright
(tweetnacl's `if (d < 32) return -1`), the tag is verified, and on success
the plaintext with ZEROBYTES leading zeros is produced. -/
def crypto_secretbox_open (c nonce key : List Byte) : Option (List Byte) :=
  if c.length < 32 then none
  else if (c.drop crypto_secretbox_BOXZEROBYTES).take crypto_secretbox_BOXZEROBYTES =
      naclTag (c.drop crypto_secretbox_ZEROBYTES) nonce key then
    some (List.replicate crypto_secretbox_ZEROBYTES 0 ++ c.drop crypto_secretbox_ZEROBYTES)
  else none

/-- The state of `struct nacl_sock` (`src/nacl.c` lines 49-58): underlying
handle, recorded buffer capacity `buflen`, the two scratch buffers, the key
and the storage-mode bit. -/
structure NaclSock where
  s : Int
  buflen : Nat
  buf1 : Option (List Byte)
  buf2 : Option (List Byte)
  key : List Byte
  mem : Bool
deriving Repr, DecidableEq

/-- Content of a buffer after `realloc` to `len` bytes succeeds: the common
prefix is preserved; fresh bytes are modelled as zeros (their values are
never observable on honest paths). -/
def reallocContent (old : Option (List Byte)) (len : Nat) : List Byte :=
  ((old.getD []).take len) ++ List.replicate (len - (old.getD []).length) 0

/-- Embeds `nacl_resizebufs` (`src/nacl.c` lines 136-145).  `ok1`/`ok2` are
the allocator oracle for the two `realloc` calls; on a failed `realloc` the
C code overwrites the buffer pointer with NULL.  Note the source sets
`obj->buflen = len` before either `realloc`.  Returns the new state and the
success flag (`rc == 0`). -/
def nacl_resizebufs (obj : NaclSock) (len : Nat) (ok1 ok2 : Bool) : NaclSock × Bool :=
  if obj.buf1.isNone || obj.buflen < len then
    let o1 : NaclSock := { obj with buflen := len }
    if ok1 then
      let o2 : NaclSock := { o1 with buf1 := some (reallocContent obj.buf1 len) }
      if ok2 then
        ({ o2 with buf2 := some (reallocContent obj.buf2 len) }, true)
      else ({ o2 with buf2 := none }, false)
    else ({ o1 with buf1 := none }, false)
  else (obj, true)

/-- Read of `n` bytes at offset `off` from a heap buffer; `none` means the
access is undefined behaviour (NULL dereference or out-of-bounds read). -/
def bufRead (b : Option (List Byte)) (off n : Nat) : Option (List Byte) :=
  match b with
  | none => if n = 0 then some [] else none
  | some l => if off + n ≤ l.length then some ((l.drop off).take n) else none

/-- Write of `data` at offset `off` into a heap buffer; `none` means the
access is undefined behaviour.  A zero-length write never faults. -/
def bufWrite (b : Option (List Byte)) (off : Nat) (data : List Byte) :
    Option (List Byte) :=
  match b with
  | none => if data.isEmpty then some [] else none
  | some l =>
    if off + data.length ≤ l.length then
      some (l.take off ++ data ++ l.drop (off + data.length))
    else none

/-- Result of an embedded call: success value, `errno` failure, or undefined
behaviour (`crash`). -/
inductive CRes (α : Type) where
  | ok (val : α)
  | err (errno : Nat)
  | crash
deriving Repr, DecidableEq

/-- Destination chunk of a scatter iolist: capacity and whether `iol_base`
is non-NULL (`src/nacl.c` line 210 skips the copy when the base is NULL). -/
structure Chunk where
  len : Nat
  hasBase : Bool
deriving Repr, DecidableEq

/-- Modelled from the spec: `iol_check` (declared in `iol.h`, implementation
not under `src/`) computes the total length of an iolist, failing with
InvalidArgument on malformed input such as a NULL list (§4.3 step 1). -/
def iol_check_dest (chunks : List Chunk) : Option Nat :=
  if chunks.isEmpty then none
  else some ((chunks.map Chunk.len).sum)

/-- Modelled from the spec: `iol_check` on the send side; source chunks
carry their bytes, the total length is the sum of chunk lengths. -/
def iol_check_src (chunks : List (List Byte)) : Option Nat :=
  if chunks.isEmpty then none
  else some ((chunks.map List.length).sum)

/-- Embeds the scatter loop of `nacl_mrecvl` (`src/nacl.c` lines 207-215):
`tocopy = min(sz, it->iol_len)`; the copy is skipped when `iol_base` is
NULL; `sz -= tocopy`; the loop breaks when `sz` hits zero, else advances
`pos` by the full chunk length and moves to the next chunk.  Returns the
concatenation of all bytes written to the destination, or `none` when the
loop walks off the end of the list (`it = it->iol_next` reaching NULL and
being dereferenced — undefined behaviour). -/
def nacl_scatter (src : List Byte) (sz : Nat) : List Chunk → Option (List Byte)
  | [] => none
  | c :: rest =>
    let tocopy := min sz c.len
    let written := if c.hasBase then src.take tocopy else []
    if sz - tocopy = 0 then some written
    else
      match nacl_scatter (src.drop c.len) (sz - tocopy) rest with
      | none => none
      | some w => some (written ++ w)

/-- Outcome of `nacl_msendl`: the return value, the post-call socket state,
and the bytes handed to the underlying transport (`none` when `msend` was
never reached). -/
structure SendOut where
  result : CRes Unit
  sock : NaclSock
  sent : Option (List Byte)
deriving Repr, DecidableEq

/-- Embeds `nacl_msendl` (`src/nacl.c` lines 147-178).  Oracles: `ok1`/`ok2`
drive the allocator inside `nacl_resizebufs`; `nonceRes` is the outcome of
`dill_random` (the secure random source, external per §1), delivering the
NONCEBYTES-byte nonce; `msendRes` is the outcome of `msend` on the
underlying transport.  The gather loop (lines 164-168) is rendered as one
bounds-checked write of the concatenated chunks at offset ZEROBYTES. -/
def nacl_msendl (obj : NaclSock) (msg : List (List Byte)) (ok1 ok2 : Bool)
    (nonceRes : CRes (List Byte)) (msendRes : CRes Unit) : SendOut :=
  match iol_check_src msg with
  | none => ⟨.err EINVAL, obj, none⟩
  | some len =>
    match nacl_resizebufs obj (NACL_EXTRABYTES + len) ok1 ok2 with
    | (o1, false) => ⟨.err ENOMEM, o1, none⟩
    | (o1, true) =>
      match nonceRes with
      | .err e => ⟨.err e, o1, none⟩
      | .crash => ⟨.crash, o1, none⟩
      | .ok nonce =>
        let mlen := len + crypto_secretbox_ZEROBYTES
        match bufWrite o1.buf1 0 (List.replicate crypto_secretbox_ZEROBYTES 0) with
        | none => ⟨.crash, o1, none⟩
        | some b1 =>
          match bufWrite (some b1) crypto_secretbox_ZEROBYTES msg.flatten with
          | none => ⟨.crash, { o1 with buf1 := some b1 }, none⟩
          | some b1 =>
            match bufRead (some b1) 0 mlen with
            | none => ⟨.crash, { o1 with buf1 := some b1 }, none⟩
            | some m =>
              match bufWrite o1.buf2 0 (crypto_secretbox m nonce o1.key) with
              | none => ⟨.crash, { o1 with buf1 := some b1 }, none⟩
              | some b2 =>
                match bufWrite (some b1) 0 nonce with
                | none => ⟨.crash, { o1 with buf1 := some b1, buf2 := some b2 }, none⟩
                | some b1 =>
                  match bufRead (some b2) crypto_secretbox_BOXZEROBYTES
                      (mlen - crypto_secretbox_BOXZEROBYTES) with
                  | none => ⟨.crash, { o1 with buf1 := some b1, buf2 := some b2 }, none⟩
                  | some mid =>
                    match bufWrite (some b1) crypto_secretbox_NONCEBYTES mid with
                    | none => ⟨.crash, { o1 with buf1 := some b1, buf2 := some b2 }, none⟩
                    | some b1 =>
                      let o2 : NaclSock := { o1 with buf1 := some b1, buf2 := some b2 }
                      let wlen := crypto_secretbox_NONCEBYTES + mlen -
                        crypto_secretbox_BOXZEROBYTES
                      match bufRead (some b1) 0 wlen with
                      | none => ⟨.crash, o2, none⟩
                      | some w =>
                        match msendRes with
                        | .ok _ => ⟨.ok (), o2, some w⟩
                        | .err e => ⟨.err e, o2, some w⟩
                        | .crash => ⟨.crash, o2, some w⟩

/-- Outcome of `nacl_mrecvl`: the return value (plaintext length on
success), the post-call socket state, whether `mrecv` on the underlying
transport was invoked, and the concatenation of the bytes written to the
destination chunks (`none` when the scatter step was never completed). -/
structure RecvOut where
  result : CRes Nat
  sock : NaclSock
  touched : Bool
  delivered : Option (List Byte)
deriving Repr, DecidableEq

/-- Embeds `nacl_mrecvl` (`src/nacl.c` lines 180-218).  Oracles: `ok1`/`ok2`
drive the allocator; `wireRes` is the outcome of `mrecv` on the underlying
transport — `.ok w` delivers the discrete wire message `w`, of which the
transport stores at most the requested bound into `buf1` while reporting the
full size.  Faithful to the source: the return code of `nacl_resizebufs`
(line 187) is assigned but never checked, and the ciphertext length `clen`
(lines 196-197) is computed in `size_t` arithmetic, wrapping modulo `2^64`
when `sz < 24`. -/
def nacl_mrecvl (obj : NaclSock) (dest : List Chunk) (ok1 ok2 : Bool)
    (wireRes : CRes (List Byte)) : RecvOut :=
  match iol_check_dest dest with
  | none => ⟨.err EINVAL, obj, false, none⟩
  | some len =>
    let o1 := (nacl_resizebufs obj (NACL_EXTRABYTES + len) ok1 ok2).1
    match wireRes with
    | .err e => ⟨.err e, o1, true, none⟩
    | .crash => ⟨.crash, o1, true, none⟩
    | .ok w =>
      let sz := w.length
      match bufWrite o1.buf1 0 (w.take (NACL_EXTRABYTES + len)) with
      | none => ⟨.crash, o1, true, none⟩
      | some b1 =>
        let o2 : NaclSock := { o1 with buf1 := some b1 }
        if NACL_EXTRABYTES + len < sz then ⟨.err EMSGSIZE, o2, true, none⟩
        else
          match bufRead (some b1) 0 crypto_secretbox_NONCEBYTES with
          | none => ⟨.crash, o2, true, none⟩
          | some nonce =>
            let clen : Nat :=
              (((crypto_secretbox_BOXZEROBYTES : Int) +
                ((sz : Int) - (crypto_secretbox_NONCEBYTES : Int))) % (2 ^ 64)).toNat
            match bufWrite o2.buf2 0 (List.replicate crypto_secretbox_BOXZEROBYTES 0) with
            | none => ⟨.crash, o2, true, none⟩
            | some b2 =>
              let copyLen : Nat :=
                (((clen : Int) - (crypto_secretbox_BOXZEROBYTES : Int)) % (2 ^ 64)).toNat
              match bufRead (some b1) crypto_secretbox_NONCEBYTES copyLen with
              | none => ⟨.crash, { o2 with buf2 := some b2 }, true, none⟩
              | some mid =>
                match bufWrite (some b2) crypto_secretbox_BOXZEROBYTES mid with
                | none => ⟨.crash, { o2 with buf2 := some b2 }, true, none⟩
                | some b2 =>
                  let o3 : NaclSock := { o2 with buf2 := some b2 }
                  match bufRead (some b2) 0 clen with
                  | none => ⟨.crash, o3, true, none⟩
                  | some cbytes =>
                    match crypto_secretbox_open cbytes nonce o3.key with
                    | none => ⟨.err EACCES, o3, true, none⟩
                    | some m =>
                      match bufWrite o3.buf1 0 m with
                      | none => ⟨.crash, o3, true, none⟩
                      | some b1 =>
                        let o4 : NaclSock := { o3 with buf1 := some b1 }
                        let plen := clen - crypto_secretbox_ZEROBYTES
                        match bufRead (some b1) crypto_secretbox_ZEROBYTES plen with
                        | none => ⟨.crash, o4, true, none⟩
                        | some src =>
                          match nacl_scatter src plen dest with
                          | none => ⟨.crash, o4, true, none⟩
                          | some d => ⟨.ok plen, o4, true, some d⟩

/-- The wire message produced by a send of plaintext `pt` under `key` with
nonce `nonce`: the nonce followed by the ciphertext with the primitive's
leading zero region stripped (`src/nacl.c` lines 170-174). -/
def naclWire (key nonce pt : List Byte) : List Byte :=
  nonce ++ (crypto_secretbox (List.replicate crypto_secretbox_ZEROBYTES 0 ++ pt)
    nonce key).drop crypto_secretbox_BOXZEROBYTES

/-- Storage mode of a `nacl_sock` object: supplied by the caller of
`nacl_attach_mem`, or `malloc`ed by `nacl_attach` (§3 `storageMode`). -/
inductive StorageTag where
  | caller
  | selfAlloc
deriving Repr, DecidableEq

/-- Resource events emitted by the lifecycle functions: a `free` of the
object storage, a `free` of an indeterminate (uninitialized) pointer, an
`hclose` of the freshly created handle, and the `hclose` of the caller's
underlying socket on success. -/
inductive ResEvent where
  | freeStorage (tag : StorageTag)
  | freeUninitPtr
  | closeHandle (h : Nat)
  | closeUnderlying
deriving Repr, DecidableEq

/-- Decidable equality for `Except`, needed to evaluate the lifecycle
outcomes on concrete inputs. -/
instance {ε α : Type} [DecidableEq ε] [DecidableEq α] : DecidableEq (Except ε α) :=
  fun x y =>
    match x, y with
    | .ok a, .ok b =>
      if h : a = b then isTrue (by rw [h])
      else isFalse (by intro he; cases he; exact h rfl)
    | .ok _, .error _ => isFalse (by intro h; cases h)
    | .error _, .ok _ => isFalse (by intro h; cases h)
    | .error e, .error f =>
      if h : e = f then isTrue (by rw [h])
      else isFalse (by intro he; cases he; exact h rfl)

/-- Outcome of an attach call: the returned handle or errno, together with
the resource events performed on the way out. -/
structure AttachOut where
  result : Except Nat Nat
  events : List ResEvent
deriving Repr, DecidableEq

/-- Embeds `nacl_attach_mem` (`src/nacl.c` lines 72-109).  Oracles:
`hqueryOk` is whether the underlying socket exposes the message-socket
capability; `hmakeRes`/`hdupRes` are the handle-table outcomes of `hmake`
and `hdup`.  Faithful to the source's goto chain: a NULL key or storage
jumps to `error2`, which executes `free(obj)` with `obj` still
uninitialized (its initialization at line 79 is jumped over); a failed
`hmake` or `hdup` also reaches `error2`, where `free(obj)` frees the
storage supplied by the caller. -/
def nacl_attach_mem (keyNull memNull : Bool) (tag : StorageTag) (hqueryOk : Bool)
    (hmakeRes hdupRes : Except Nat Nat) : AttachOut :=
  if keyNull || memNull then ⟨.error EINVAL, [.freeUninitPtr]⟩
  else if !hqueryOk then ⟨.error ENOTSUP, []⟩
  else
    match hmakeRes with
    | .error e => ⟨.error e, [.freeStorage tag]⟩
    | .ok h =>
      match hdupRes with
      | .error e => ⟨.error e, [.closeHandle h, .freeStorage tag]⟩
      | .ok _ => ⟨.ok h, [.closeUnderlying]⟩

/-- Embeds `nacl_attach` (`src/nacl.c` lines 111-124): `malloc` the object,
delegate to `nacl_attach_mem` with that storage, and on failure of the
inner call execute `free(obj)` once more at its own `error2` label. -/
def nacl_attach (mallocOk : Bool) (hqueryOk : Bool)
    (hmakeRes hdupRes : Except Nat Nat) : AttachOut :=
  if !mallocOk then ⟨.error ENOMEM, []⟩
  else
    let inner := nacl_attach_mem false false .selfAlloc hqueryOk hmakeRes hdupRes
    match inner.result with
    | .error e => ⟨.error e, inner.events ++ [.freeStorage .selfAlloc]⟩
    | .ok cs => ⟨.ok cs, inner.events⟩

/-- Answer of `nacl_hquery`: the msock virtual-function table or the object
pointer itself. -/
inductive QueryAns where
  | mvfsPtr
  | objPtr
deriving Repr, DecidableEq

/-- Capability type tags used by queries against this layer. -/
inductive QueryType where
  | msock
  | nacl
  | other
deriving Repr, DecidableEq

/-- Embeds `nacl_hquery` (`src/nacl.c` lines 62-68): answers the msock and
nacl type tags, and fails with ENOTSUP for any other capability. -/
def nacl_hquery (t : QueryType) : Except Nat QueryAns :=
  match t with
  | .msock => .ok .mvfsPtr
  | .nacl => .ok .objPtr
  | .other => .error ENOTSUP

/-- Object a live handle can refer to: an encrypted socket of this layer,
or an object of some other layer. -/
inductive LayerObj where
  | naclObj (o : NaclSock)
  | otherLayer
deriving Repr, DecidableEq

/-- Modelled from the spec: the generic handle table's capability query
(`hquery(s, nacl_type)`; the handle table is an external collaborator, §1).
Per §6, `query(handle, capability) → implementation | NotSupported`: a
handle of another layer answers ENOTSUP for the nacl type tag — exactly as
`nacl_hquery` answers ENOTSUP for foreign tags — and an invalid handle
fails with EBADF. -/
def hquery_nacl (h : Option LayerObj) : Except Nat NaclSock :=
  match h with
  | none => .error EBADF
  | some .otherLayer => .error ENOTSUP
  | some (.naclObj o) => .ok o

/-- Outcome of `nacl_detach`: the returned underlying handle or errno, and
which frees were performed. -/
structure DetachOut where
  result : Except Nat Int
  freedBuf1 : Bool
  freedBuf2 : Bool
  freedStorage : Bool
deriving Repr, DecidableEq

/-- Embeds `nacl_detach` (`src/nacl.c` lines 126-134): query the handle for
the nacl type; on failure return -1 with the query's errno, touching
nothing; on success free both scratch buffers, free the storage when
self-allocated, and return the still-open underlying handle. -/
def nacl_detach (h : Option LayerObj) : DetachOut :=
  match hquery_nacl h with
  | .error e => ⟨.error e, false, false, false⟩
  | .ok obj => ⟨.ok obj.s, true, true, !obj.mem⟩

/-- Well-formed buffer state of a socket: either still unallocated exactly
as `nacl_attach_mem` leaves it (lines 86-88), or both scratch buffers are
allocated with capacity equal to the recorded `buflen`.  Every state
reachable through calls whose allocations all succeed is of this shape. -/
def NaclSock.wf (o : NaclSock) : Prop :=
  (o.buf1 = none ∧ o.buf2 = none ∧ o.buflen = 0) ∨
  (∃ b1 b2, o.buf1 = some b1 ∧ o.buf2 = some b2 ∧
    b1.length = o.buflen ∧ b2.length = o.buflen)

/-- Freshly attached encrypted socket exactly as `nacl_attach_mem`
initializes it (`src/nacl.c` lines 85-90: `buflen = 0`, both buffers NULL,
`mem = 1`), holding the all-zero 32-byte key of the spec's concrete
scenario (§8). -/
def sock0 : NaclSock :=
  ⟨0, 0, none, none, List.replicate crypto_secretbox_KEYBYTES 0, true⟩

/-- Concrete NONCEBYTES-byte nonce delivered by the random source. -/
def nonce0 : List Byte := List.replicate crypto_secretbox_NONCEBYTES 1

/-- A second, different concrete nonce. -/
def nonce1 : List Byte := List.replicate crypto_secretbox_NONCEBYTES 2

/-- The spec's concrete 4-byte plaintext `"ping"` (§8). -/
def ping : List Byte := [112, 105, 110, 103]

/-- A successful `realloc` yields a block of exactly the requested size. -/
theorem reallocContent_length (old : Option (List Byte)) (len : Nat) :
    (reallocContent old len).length = len := by
  simp only [reallocContent, List.length_append, List.length_take, List.length_replicate]
  omega

/-- An in-bounds read evaluates to the addressed slice. -/
theorem bufRead_some (l : List Byte) (off n : Nat) (h : off + n ≤ l.length) :
    bufRead (some l) off n = some ((l.drop off).take n) := by
  simp [bufRead, h]

/-- An in-bounds write evaluates to the spliced buffer. -/
theorem bufWrite_some (l : List Byte) (off : Nat) (data : List Byte)
    (h : off + data.length ≤ l.length) :
    bufWrite (some l) off data = some (l.take off ++ data ++ l.drop (off + data.length)) := by
  simp [bufWrite, h]

/-- Under an allocator that succeeds, `nacl_resizebufs` on a well-formed
socket succeeds, keeps the socket well formed, leaves both buffers allocated
with capacity `buflen`, never decreases `buflen`, guarantees the requested
capacity, and touches no other field. -/
theorem nacl_resizebufs_ok (o : NaclSock) (len : Nat) (hwf : o.wf) :
    ∃ o1 b1 b2, nacl_resizebufs o len true true = (o1, true) ∧
      o1.buf1 = some b1 ∧ o1.buf2 = some b2 ∧
      b1.length = o1.buflen ∧ b2.length = o1.buflen ∧
      len ≤ o1.buflen ∧ o.buflen ≤ o1.buflen ∧
      o1.key = o.key ∧ o1.s = o.s ∧ o1.mem = o.mem := by
  unfold nacl_resizebufs
  rcases hwf with ⟨h1, h2, h3⟩ | ⟨b1, b2, h1, h2, h3, h4⟩
  · simp only [h1, h2, h3, Option.isNone_none, Bool.true_or, if_true]
    exact ⟨_, _, _, rfl, rfl, rfl, by simp [reallocContent_length],
      by simp [reallocContent_length], by simp, by simp, rfl, rfl, rfl⟩
  · by_cases hlt : o.buflen < len
    · simp only [h1, Option.isNone_some, Bool.false_or, decide_eq_true_eq]
      rw [if_pos hlt]
      exact ⟨_, _, _, rfl, rfl, rfl, by simp [reallocContent_length],
        by simp [reallocContent_length], by simp, by simp [Nat.le_of_lt hlt], rfl, rfl, rfl⟩
    · simp only [h1, Option.isNone_some, Bool.false_or, decide_eq_true_eq]
      rw [if_neg hlt]
      exact ⟨o, b1, b2, rfl, h1, h2, h3, h4, by omega, le_refl _, rfl, rfl, rfl⟩

/-- Taking exactly the length of the left part of an append yields it. -/
theorem take_app {a : List Byte} (x : List Byte) {n : Nat} (h : a.length = n) :
    (a ++ x).take n = a :=
  List.take_left' h

/-- Dropping exactly the length of the left part of an append removes it. -/
theorem drop_app {a : List Byte} (x : List Byte) {n : Nat} (h : a.length = n) :
    (a ++ x).drop n = x :=
  List.drop_left' h

/-- Dropping past the left part of an append keeps dropping on the right. -/
theorem drop_app_plus {a : List Byte} (x : List Byte) {n : Nat} (k : Nat)
    (h : a.length = n) : (a ++ x).drop (n + k) = x.drop k := by
  rw [← List.drop_drop, drop_app x h]

/-- Taking past the left part of an append keeps taking on the right. -/
theorem take_app_plus {a : List Byte} (x : List Byte) {n : Nat} (k : Nat)
    (h : a.length = n) : (a ++ x).take (n + k) = a ++ x.take k := by
  rw [List.take_add, take_app x h, drop_app x h]

/-- Length of the flattened send iolist. -/
theorem flatten_length (msg : List (List Byte)) :
    msg.flatten.length = (msg.map List.length).sum := by
  simp

/-- An in-bounds write preserves the buffer's allocation size. -/
theorem splice_length (l : List Byte) (off : Nat) (data : List Byte)
    (h : off + data.length ≤ l.length) :
    (l.take off ++ data ++ l.drop (off + data.length)).length = l.length := by
  simp only [List.length_append, List.length_take, List.length_drop]
  omega

/-- The tag of the modelled primitive is BOXZEROBYTES bytes long. -/
theorem naclTag_length (payload nonce key : List Byte) :
    (naclTag payload nonce key).length = crypto_secretbox_BOXZEROBYTES := by
  simp [naclTag]

/-- Sealing a correctly zero-padded message yields BOXZEROBYTES zeros, the
tag, and the payload. -/
theorem crypto_secretbox_eq (pt nonce key : List Byte) :
    crypto_secretbox (List.replicate crypto_secretbox_ZEROBYTES 0 ++ pt) nonce key =
      List.replicate crypto_secretbox_BOXZEROBYTES 0 ++ naclTag pt nonce key ++ pt := by
  unfold crypto_secretbox
  rw [drop_app pt (by simp)]

/-- The ciphertext has the same total length as the padded message. -/
theorem crypto_secretbox_length (pt nonce key : List Byte) :
    (crypto_secretbox (List.replicate crypto_secretbox_ZEROBYTES 0 ++ pt) nonce key).length =
      crypto_secretbox_ZEROBYTES + pt.length := by
  rw [crypto_secretbox_eq]
  simp only [List.length_append, List.length_replicate, naclTag_length,
    crypto_secretbox_BOXZEROBYTES, crypto_secretbox_ZEROBYTES]

/-- Round trip of the modelled primitive: opening a sealed, correctly padded
message under the same nonce and key recovers the padded plaintext. -/
theorem crypto_secretbox_open_seal (pt nonce key : List Byte) :
    crypto_secretbox_open
      (crypto_secretbox (List.replicate crypto_secretbox_ZEROBYTES 0 ++ pt) nonce key)
      nonce key =
      some (List.replicate crypto_secretbox_ZEROBYTES 0 ++ pt) := by
  rw [crypto_secretbox_eq]
  unfold crypto_secretbox_open
  have htag : (naclTag pt nonce key).length = 16 := by rw [naclTag_length]; rfl
  have hdrop32 : (List.replicate crypto_secretbox_BOXZEROBYTES (0 : Byte) ++
      naclTag pt nonce key ++ pt).drop crypto_secretbox_ZEROBYTES = pt :=
    drop_app pt (by
      simp only [List.length_append, List.length_replicate, naclTag_length]
      rfl)
  have hdrop16 : (List.replicate crypto_secretbox_BOXZEROBYTES (0 : Byte) ++
      naclTag pt nonce key ++ pt).drop crypto_secretbox_BOXZEROBYTES =
      naclTag pt nonce key ++ pt := by
    rw [List.append_assoc]
    exact drop_app _ (by simp)
  rw [if_neg (by
    simp only [List.length_append, List.length_replicate, naclTag_length,
      crypto_secretbox_BOXZEROBYTES]
    omega)]
  rw [hdrop16, hdrop32, if_pos (take_app pt (naclTag_length pt nonce key))]

/-- Explicit shape of the wire message in the modelled primitive. -/
theorem naclWire_eq (key nonce pt : List Byte) :
    naclWire key nonce pt = nonce ++ (naclTag pt nonce key ++ pt) := by
  unfold naclWire
  rw [crypto_secretbox_eq]
  congr 1

/-- Wire length: NONCE_SIZE + plaintext length + TAG_SIZE, where TAG_SIZE
is ZEROBYTES - BOXZEROBYTES. -/
theorem naclWire_length (key nonce pt : List Byte)
    (h : nonce.length = crypto_secretbox_NONCEBYTES) :
    (naclWire key nonce pt).length = crypto_secretbox_NONCEBYTES + pt.length +
      (crypto_secretbox_ZEROBYTES - crypto_secretbox_BOXZEROBYTES) := by
  rw [naclWire_eq]
  simp only [List.length_append, naclTag_length, h, crypto_secretbox_NONCEBYTES,
    crypto_secretbox_ZEROBYTES, crypto_secretbox_BOXZEROBYTES]
  omega

/-- The wire message starts with the nonce. -/
theorem naclWire_take (key nonce pt : List Byte)
    (h : nonce.length = crypto_secretbox_NONCEBYTES) :
    (naclWire key nonce pt).take crypto_secretbox_NONCEBYTES = nonce := by
  rw [naclWire_eq]
  exact take_app _ h

/-- Characterization of a send whose allocations succeed and whose random
source delivers a NONCEBYTES-byte nonce: the bytes handed to the transport
are exactly `naclWire`, the return value is the transport's, the key and
identity fields are untouched, the socket stays well formed and its
recorded capacity never decreases. -/
theorem nacl_msendl_ok (o : NaclSock) (msg : List (List Byte)) (nonce : List Byte)
    (sres : CRes Unit) (hwf : o.wf) (hmsg : msg ≠ [])
    (hnonce : nonce.length = crypto_secretbox_NONCEBYTES) :
    (nacl_msendl o msg true true (.ok nonce) sres).sent =
        some (naclWire o.key nonce msg.flatten) ∧
    (nacl_msendl o msg true true (.ok nonce) sres).result = sres ∧
    (nacl_msendl o msg true true (.ok nonce) sres).sock.key = o.key ∧
    (nacl_msendl o msg true true (.ok nonce) sres).sock.s = o.s ∧
    (nacl_msendl o msg true true (.ok nonce) sres).sock.mem = o.mem ∧
    (nacl_msendl o msg true true (.ok nonce) sres).sock.wf ∧
    o.buflen ≤ (nacl_msendl o msg true true (.ok nonce) sres).sock.buflen := by
  obtain ⟨o1, b1, b2, heq, hb1, hb2, hl1, hl2, hreq, hmono, hkey, hs, hmem⟩ :=
    nacl_resizebufs_ok o (NACL_EXTRABYTES + msg.flatten.length) hwf
  have hempty : msg.isEmpty = false := by
    cases msg with
    | nil => exact absurd rfl hmsg
    | cons a l => rfl
  have hiol : iol_check_src msg = some msg.flatten.length := by
    unfold iol_check_src
    rw [if_neg (by simp [hempty]), flatten_length]
  have hcap1 : 56 + msg.flatten.length ≤ b1.length := by rw [hl1]; exact hreq
  have hcap2 : 56 + msg.flatten.length ≤ b2.length := by rw [hl2]; exact hreq
  have hnl : nonce.length = 24 := hnonce
  have hA : bufWrite o1.buf1 0 (List.replicate crypto_secretbox_ZEROBYTES (0 : Byte)) =
      some (List.replicate crypto_secretbox_ZEROBYTES (0 : Byte) ++
        b1.drop crypto_secretbox_ZEROBYTES) := by
    rw [hb1, bufWrite_some _ _ _ (by
      simp only [List.length_replicate, crypto_secretbox_ZEROBYTES]
      omega)]
    simp
  have hv1len : (List.replicate crypto_secretbox_ZEROBYTES (0 : Byte) ++
      b1.drop crypto_secretbox_ZEROBYTES).length = b1.length := by
    simp only [List.length_append, List.length_replicate, List.length_drop,
      crypto_secretbox_ZEROBYTES]
    omega
  have hB : bufWrite (some (List.replicate crypto_secretbox_ZEROBYTES (0 : Byte) ++
        b1.drop crypto_secretbox_ZEROBYTES)) crypto_secretbox_ZEROBYTES msg.flatten =
      some (List.replicate crypto_secretbox_ZEROBYTES (0 : Byte) ++ msg.flatten ++
        (b1.drop crypto_secretbox_ZEROBYTES).drop msg.flatten.length) := by
    rw [bufWrite_some _ _ _ (by rw [hv1len]; simp only [crypto_secretbox_ZEROBYTES]; omega)]
    rw [take_app _ (by simp), drop_app_plus _ _ (by simp)]
  have hv2len : (List.replicate crypto_secretbox_ZEROBYTES (0 : Byte) ++ msg.flatten ++
      (b1.drop crypto_secretbox_ZEROBYTES).drop msg.flatten.length).length = b1.length := by
    simp only [List.length_append, List.length_replicate, List.length_drop,
      crypto_secretbox_ZEROBYTES]
    omega
  have hC : bufRead (some (List.replicate crypto_secretbox_ZEROBYTES (0 : Byte) ++
        msg.flatten ++ (b1.drop crypto_secretbox_ZEROBYTES).drop msg.flatten.length)) 0
        (msg.flatten.length + crypto_secretbox_ZEROBYTES) =
      some (List.replicate crypto_secretbox_ZEROBYTES (0 : Byte) ++ msg.flatten) := by
    rw [bufRead_some _ _ _ (by rw [hv2len]; simp only [crypto_secretbox_ZEROBYTES]; omega)]
    rw [List.drop_zero, take_app _ (by
      simp only [List.length_append, List.length_replicate, crypto_secretbox_ZEROBYTES]
      omega)]
  have hD : bufWrite o1.buf2 0 (crypto_secretbox (List.replicate crypto_secretbox_ZEROBYTES
        (0 : Byte) ++ msg.flatten) nonce o1.key) =
      some (crypto_secretbox (List.replicate crypto_secretbox_ZEROBYTES (0 : Byte) ++
        msg.flatten) nonce o1.key ++
        b2.drop (crypto_secretbox (List.replicate crypto_secretbox_ZEROBYTES (0 : Byte) ++
          msg.flatten) nonce o1.key).length) := by
    rw [hb2, bufWrite_some _ _ _ (by
      rw [crypto_secretbox_length]
      simp only [crypto_secretbox_ZEROBYTES]
      omega)]
    simp
  have hE : bufWrite (some (List.replicate crypto_secretbox_ZEROBYTES (0 : Byte) ++
        msg.flatten ++ (b1.drop crypto_secretbox_ZEROBYTES).drop msg.flatten.length)) 0
        nonce =
      some (nonce ++ (List.replicate crypto_secretbox_ZEROBYTES (0 : Byte) ++
        msg.flatten ++ (b1.drop crypto_secretbox_ZEROBYTES).drop msg.flatten.length).drop
        nonce.length) := by
    rw [bufWrite_some _ _ _ (by rw [hv2len, hnl]; omega)]
    simp
  have hv4len : (nonce ++ (List.replicate crypto_secretbox_ZEROBYTES (0 : Byte) ++
      msg.flatten ++ (b1.drop crypto_secretbox_ZEROBYTES).drop msg.flatten.length).drop
      nonce.length).length = b1.length := by
    simp only [List.length_append, List.length_drop, hv2len, hnl]
    omega
  have hv3len : (crypto_secretbox (List.replicate crypto_secretbox_ZEROBYTES (0 : Byte) ++
      msg.flatten) nonce o1.key ++
      b2.drop (crypto_secretbox (List.replicate crypto_secretbox_ZEROBYTES (0 : Byte) ++
        msg.flatten) nonce o1.key).length).length = b2.length := by
    simp only [List.length_append, List.length_drop, crypto_secretbox_length]
    simp only [crypto_secretbox_ZEROBYTES]
    omega
  have hF : bufRead (some (crypto_secretbox (List.replicate crypto_secretbox_ZEROBYTES
        (0 : Byte) ++ msg.flatten) nonce o1.key ++
        b2.drop (crypto_secretbox (List.replicate crypto_secretbox_ZEROBYTES (0 : Byte) ++
          msg.flatten) nonce o1.key).length)) crypto_secretbox_BOXZEROBYTES
        (msg.flatten.length + crypto_secretbox_ZEROBYTES - crypto_secretbox_BOXZEROBYTES) =
      some (naclTag msg.flatten nonce o1.key ++ msg.flatten) := by
    rw [bufRead_some _ _ _ (by
      rw [hv3len]
      simp only [crypto_secretbox_ZEROBYTES, crypto_secretbox_BOXZEROBYTES]
      omega)]
    rw [crypto_secretbox_eq, List.append_assoc, List.append_assoc,
      drop_app _ (by simp), ← List.append_assoc,
      take_app _ (by
        simp only [List.length_append, naclTag_length, crypto_secretbox_BOXZEROBYTES,
          crypto_secretbox_ZEROBYTES]
        omega)]
  have hG : bufWrite (some (nonce ++ (List.replicate crypto_secretbox_ZEROBYTES (0 : Byte) ++
        msg.flatten ++ (b1.drop crypto_secretbox_ZEROBYTES).drop msg.flatten.length).drop
        nonce.length)) crypto_secretbox_NONCEBYTES
        (naclTag msg.flatten nonce o1.key ++ msg.flatten) =
      some (nonce ++ (naclTag msg.flatten nonce o1.key ++ msg.flatten) ++
        (nonce ++ (List.replicate crypto_secretbox_ZEROBYTES (0 : Byte) ++
          msg.flatten ++ (b1.drop crypto_secretbox_ZEROBYTES).drop msg.flatten.length).drop
          nonce.length).drop (crypto_secretbox_NONCEBYTES +
          (naclTag msg.flatten nonce o1.key ++ msg.flatten).length)) := by
    rw [bufWrite_some _ _ _ (by
      rw [hv4len]
      simp only [List.length_append, naclTag_length, crypto_secretbox_BOXZEROBYTES,
        crypto_secretbox_NONCEBYTES]
      omega)]
    rw [take_app _ hnonce]
  have hv5len : (nonce ++ (naclTag msg.flatten nonce o1.key ++ msg.flatten) ++
      (nonce ++ (List.replicate crypto_secretbox_ZEROBYTES (0 : Byte) ++
        msg.flatten ++ (b1.drop crypto_secretbox_ZEROBYTES).drop msg.flatten.length).drop
        nonce.length).drop (crypto_secretbox_NONCEBYTES +
        (naclTag msg.flatten nonce o1.key ++ msg.flatten).length)).length = b1.length := by
    simp only [List.length_append, List.length_drop, naclTag_length, hv2len, hnl,
      crypto_secretbox_BOXZEROBYTES, crypto_secretbox_NONCEBYTES]
    omega
  have hH : bufRead (some (nonce ++ (naclTag msg.flatten nonce o1.key ++ msg.flatten) ++
        (nonce ++ (List.replicate crypto_secretbox_ZEROBYTES (0 : Byte) ++
          msg.flatten ++ (b1.drop crypto_secretbox_ZEROBYTES).drop msg.flatten.length).drop
          nonce.length).drop (crypto_secretbox_NONCEBYTES +
          (naclTag msg.flatten nonce o1.key ++ msg.flatten).length))) 0
        (crypto_secretbox_NONCEBYTES + (msg.flatten.length + crypto_secretbox_ZEROBYTES) -
          crypto_secretbox_BOXZEROBYTES) =
      some (nonce ++ (naclTag msg.flatten nonce o1.key ++ msg.flatten)) := by
    rw [bufRead_some _ _ _ (by
      rw [hv5len]
      simp only [crypto_secretbox_NONCEBYTES, crypto_secretbox_ZEROBYTES,
        crypto_secretbox_BOXZEROBYTES]
      omega)]
    rw [List.drop_zero, take_app _ (by
      simp only [List.length_append, naclTag_length, hnl, crypto_secretbox_NONCEBYTES,
        crypto_secretbox_ZEROBYTES, crypto_secretbox_BOXZEROBYTES]
      omega)]
  simp only [nacl_msendl, hiol, heq, hA, hB, hC, hD, hE, hF, hG, hH]
  cases sres <;>
    exact ⟨by rw [naclWire_eq, hkey], rfl, hkey, hs, hmem,
      Or.inr ⟨_, _, rfl, rfl, by rw [hv5len, hl1], by rw [hv3len, hl2]⟩, hmono⟩

/-- The scatter loop, when every destination chunk has a base and the total
destination capacity covers the plaintext, delivers exactly the first `sz`
source bytes (filling each chunk to its own capacity before advancing). -/
theorem nacl_scatter_complete (dest : List Chunk) (src : List Byte) (sz : Nat)
    (hne : dest ≠ []) (hbase : ∀ c ∈ dest, c.hasBase = true)
    (hcap : sz ≤ (dest.map Chunk.len).sum) :
    nacl_scatter src sz dest = some (src.take sz) := by
  induction dest generalizing src sz with
  | nil => exact absurd rfl hne
  | cons c rest ih =>
    have hcb : c.hasBase = true := hbase c (List.mem_cons_self c rest)
    simp only [nacl_scatter, hcb, if_true]
    by_cases hle : sz ≤ c.len
    · rw [Nat.min_eq_left hle, if_pos (Nat.sub_self sz)]
    · push_neg at hle
      rw [Nat.min_eq_right (le_of_lt hle), if_neg (by omega)]
      have hrest : rest ≠ [] := by
        rintro rfl
        simp only [List.map_cons, List.map_nil, List.sum_cons, List.sum_nil] at hcap
        omega
      have hcap2 : sz - c.len ≤ (rest.map Chunk.len).sum := by
        simp only [List.map_cons, List.sum_cons] at hcap
        omega
      simp only [ih (src.drop c.len) (sz - c.len) hrest
        (fun d hd => hbase d (List.mem_cons_of_mem c hd)) hcap2]
      rw [← List.take_add, show c.len + (sz - c.len) = sz from by omega]

/-- The scatter loop walks off the end of the destination list (undefined
behaviour) whenever the plaintext is strictly longer than the total
destination capacity. -/
theorem nacl_scatter_overflow (dest : List Chunk) (src : List Byte) (sz : Nat)
    (hcap : (dest.map Chunk.len).sum < sz) :
    nacl_scatter src sz dest = none := by
  induction dest generalizing src sz with
  | nil => rfl
  | cons c rest ih =>
    simp only [List.map_cons, List.sum_cons] at hcap
    simp only [nacl_scatter]
    rw [Nat.min_eq_right (by omega), if_neg (by omega)]
    simp only [ih (src.drop c.len) (sz - c.len) (by omega)]

/-- Characterization of a receive whose allocations succeed and whose
transport delivers a wire message honestly produced under the same key: the
call returns the plaintext length, delivers exactly the plaintext bytes to
the destination chunks, preserves the key and identity fields, keeps the
socket well formed and never shrinks the recorded capacity. -/
theorem nacl_mrecvl_ok (o : NaclSock) (dest : List Chunk) (nonce pt : List Byte)
    (hwf : o.wf) (hdest : dest ≠ []) (hbase : ∀ c ∈ dest, c.hasBase = true)
    (hnonce : nonce.length = crypto_secretbox_NONCEBYTES)
    (hcap : pt.length ≤ (dest.map Chunk.len).sum)
    (hbig : pt.length + 40 < 2 ^ 64) :
    (nacl_mrecvl o dest true true (.ok (naclWire o.key nonce pt))).result =
      .ok pt.length ∧
    (nacl_mrecvl o dest true true (.ok (naclWire o.key nonce pt))).delivered = some pt ∧
    (nacl_mrecvl o dest true true (.ok (naclWire o.key nonce pt))).sock.key = o.key ∧
    (nacl_mrecvl o dest true true (.ok (naclWire o.key nonce pt))).sock.s = o.s ∧
    (nacl_mrecvl o dest true true (.ok (naclWire o.key nonce pt))).sock.mem = o.mem ∧
    (nacl_mrecvl o dest true true (.ok (naclWire o.key nonce pt))).sock.wf ∧
    o.buflen ≤ (nacl_mrecvl o dest true true (.ok (naclWire o.key nonce pt))).sock.buflen ∧
    (nacl_mrecvl o dest true true (.ok (naclWire o.key nonce pt))).touched = true := by
  rw [naclWire_eq]
  obtain ⟨o1, b1, b2, heq, hb1, hb2, hl1, hl2, hreq, hmono, hkey, hs, hmem⟩ :=
    nacl_resizebufs_ok o (NACL_EXTRABYTES + (dest.map Chunk.len).sum) hwf
  have hempty : dest.isEmpty = false := by
    cases dest with
    | nil => exact absurd rfl hdest
    | cons a l => rfl
  have hiol : iol_check_dest dest = some ((dest.map Chunk.len).sum) := by
    unfold iol_check_dest
    rw [if_neg (by simp [hempty])]
  have hnl : nonce.length = 24 := hnonce
  have hcapb1 : 56 + (dest.map Chunk.len).sum ≤ b1.length := by rw [hl1]; exact hreq
  have hcapb2 : 56 + (dest.map Chunk.len).sum ≤ b2.length := by rw [hl2]; exact hreq
  have hWlen : (nonce ++ (naclTag pt nonce o.key ++ pt)).length = pt.length + 40 := by
    simp only [List.length_append, naclTag_length, hnl, crypto_secretbox_BOXZEROBYTES]
    omega
  have hTake : (nonce ++ (naclTag pt nonce o.key ++ pt)).take
      (NACL_EXTRABYTES + (dest.map Chunk.len).sum) =
      nonce ++ (naclTag pt nonce o.key ++ pt) :=
    List.take_of_length_le (by
      rw [hWlen]
      simp only [NACL_EXTRABYTES, crypto_secretbox_ZEROBYTES, crypto_secretbox_NONCEBYTES]
      omega)
  have hWr : bufWrite o1.buf1 0 (nonce ++ (naclTag pt nonce o.key ++ pt)) =
      some ((nonce ++ (naclTag pt nonce o.key ++ pt)) ++
        b1.drop (nonce ++ (naclTag pt nonce o.key ++ pt)).length) := by
    rw [hb1, bufWrite_some _ _ _ (by rw [Nat.zero_add, hWlen]; omega)]
    simp
  have hv1len : ((nonce ++ (naclTag pt nonce o.key ++ pt)) ++
      b1.drop (nonce ++ (naclTag pt nonce o.key ++ pt)).length).length = b1.length := by
    simp only [List.length_append, List.length_drop, naclTag_length, hnl,
      crypto_secretbox_BOXZEROBYTES]
    omega
  have hEM : ¬(NACL_EXTRABYTES + (dest.map Chunk.len).sum <
      (nonce ++ (naclTag pt nonce o.key ++ pt)).length) := by
    rw [hWlen]
    simp only [NACL_EXTRABYTES, crypto_secretbox_ZEROBYTES, crypto_secretbox_NONCEBYTES]
    omega
  have hN : bufRead (some ((nonce ++ (naclTag pt nonce o.key ++ pt)) ++
      b1.drop (nonce ++ (naclTag pt nonce o.key ++ pt)).length)) 0
      crypto_secretbox_NONCEBYTES = some nonce := by
    rw [bufRead_some _ _ _ (by
      rw [hv1len]
      simp only [crypto_secretbox_NONCEBYTES]
      omega)]
    rw [List.drop_zero, List.append_assoc, take_app _ hnonce]
  have hclen : (((crypto_secretbox_BOXZEROBYTES : Int) +
      (((nonce ++ (naclTag pt nonce o.key ++ pt)).length : Int) -
        (crypto_secretbox_NONCEBYTES : Int))) % (2 ^ 64)).toNat =
      pt.length + crypto_secretbox_ZEROBYTES := by
    rw [hWlen]
    simp only [crypto_secretbox_BOXZEROBYTES, crypto_secretbox_NONCEBYTES,
      crypto_secretbox_ZEROBYTES]
    omega
  have hMemset : bufWrite o1.buf2 0 (List.replicate crypto_secretbox_BOXZEROBYTES
      (0 : Byte)) = some (List.replicate crypto_secretbox_BOXZEROBYTES (0 : Byte) ++
      b2.drop crypto_secretbox_BOXZEROBYTES) := by
    rw [hb2, bufWrite_some _ _ _ (by
      simp only [List.length_replicate, crypto_secretbox_BOXZEROBYTES]
      omega)]
    simp
  have hcopy : ((((pt.length + crypto_secretbox_ZEROBYTES : Nat) : Int) -
      (crypto_secretbox_BOXZEROBYTES : Int)) % (2 ^ 64)).toNat =
      pt.length + crypto_secretbox_BOXZEROBYTES := by
    simp only [crypto_secretbox_ZEROBYTES, crypto_secretbox_BOXZEROBYTES]
    omega
  have hMid : bufRead (some ((nonce ++ (naclTag pt nonce o.key ++ pt)) ++
      b1.drop (nonce ++ (naclTag pt nonce o.key ++ pt)).length))
      crypto_secretbox_NONCEBYTES (pt.length + crypto_secretbox_BOXZEROBYTES) =
      some (naclTag pt nonce o.key ++ pt) := by
    rw [bufRead_some _ _ _ (by
      rw [hv1len]
      simp only [crypto_secretbox_NONCEBYTES, crypto_secretbox_BOXZEROBYTES]
      omega)]
    rw [List.append_assoc, drop_app _ hnonce, take_app _ (by
      simp only [List.length_append, naclTag_length]
      omega)]
  have hM2 : bufWrite (some (List.replicate crypto_secretbox_BOXZEROBYTES (0 : Byte) ++
      b2.drop crypto_secretbox_BOXZEROBYTES)) crypto_secretbox_BOXZEROBYTES
      (naclTag pt nonce o.key ++ pt) =
      some (List.replicate crypto_secretbox_BOXZEROBYTES (0 : Byte) ++
        (naclTag pt nonce o.key ++ pt) ++
        (b2.drop crypto_secretbox_BOXZEROBYTES).drop
          (naclTag pt nonce o.key ++ pt).length) := by
    rw [bufWrite_some _ _ _ (by
      simp only [List.length_append, List.length_replicate, List.length_drop,
        naclTag_length, crypto_secretbox_BOXZEROBYTES]
      omega)]
    rw [take_app _ (by simp), drop_app_plus _ _ (by simp)]
  have hv3len : (List.replicate crypto_secretbox_BOXZEROBYTES (0 : Byte) ++
      (naclTag pt nonce o.key ++ pt) ++
      (b2.drop crypto_secretbox_BOXZEROBYTES).drop
        (naclTag pt nonce o.key ++ pt).length).length = b2.length := by
    simp only [List.length_append, List.length_replicate, List.length_drop,
      naclTag_length, crypto_secretbox_BOXZEROBYTES]
    omega
  have hCB : bufRead (some (List.replicate crypto_secretbox_BOXZEROBYTES (0 : Byte) ++
      (naclTag pt nonce o.key ++ pt) ++
      (b2.drop crypto_secretbox_BOXZEROBYTES).drop
        (naclTag pt nonce o.key ++ pt).length)) 0
      (pt.length + crypto_secretbox_ZEROBYTES) =
      some (List.replicate crypto_secretbox_BOXZEROBYTES (0 : Byte) ++
        (naclTag pt nonce o.key ++ pt)) := by
    rw [bufRead_some _ _ _ (by
      rw [hv3len]
      simp only [crypto_secretbox_ZEROBYTES]
      omega)]
    rw [List.drop_zero, take_app _ (by
      simp only [List.length_append, List.length_replicate, naclTag_length,
        crypto_secretbox_BOXZEROBYTES, crypto_secretbox_ZEROBYTES]
      omega)]
  have hOpen : crypto_secretbox_open (List.replicate crypto_secretbox_BOXZEROBYTES
      (0 : Byte) ++ (naclTag pt nonce o.key ++ pt)) nonce o1.key =
      some (List.replicate crypto_secretbox_ZEROBYTES (0 : Byte) ++ pt) := by
    rw [hkey, ← List.append_assoc, ← crypto_secretbox_eq, crypto_secretbox_open_seal]
  have hPm : bufWrite (some ((nonce ++ (naclTag pt nonce o.key ++ pt)) ++
      b1.drop (nonce ++ (naclTag pt nonce o.key ++ pt)).length)) 0
      (List.replicate crypto_secretbox_ZEROBYTES (0 : Byte) ++ pt) =
      some (List.replicate crypto_secretbox_ZEROBYTES (0 : Byte) ++ pt ++
        ((nonce ++ (naclTag pt nonce o.key ++ pt)) ++
          b1.drop (nonce ++ (naclTag pt nonce o.key ++ pt)).length).drop
          (List.replicate crypto_secretbox_ZEROBYTES (0 : Byte) ++ pt).length) := by
    rw [bufWrite_some _ _ _ (by
      rw [hv1len]
      simp only [List.length_append, List.length_replicate, crypto_secretbox_ZEROBYTES]
      omega)]
    simp
  have hv4len : (List.replicate crypto_secretbox_ZEROBYTES (0 : Byte) ++ pt ++
      ((nonce ++ (naclTag pt nonce o.key ++ pt)) ++
        b1.drop (nonce ++ (naclTag pt nonce o.key ++ pt)).length).drop
        (List.replicate crypto_secretbox_ZEROBYTES (0 : Byte) ++ pt).length).length =
      b1.length := by
    simp only [List.length_append, List.length_replicate, List.length_drop,
      naclTag_length, hnl, crypto_secretbox_ZEROBYTES, crypto_secretbox_BOXZEROBYTES]
    omega
  have hSrc : bufRead (some (List.replicate crypto_secretbox_ZEROBYTES (0 : Byte) ++ pt ++
      ((nonce ++ (naclTag pt nonce o.key ++ pt)) ++
        b1.drop (nonce ++ (naclTag pt nonce o.key ++ pt)).length).drop
        (List.replicate crypto_secretbox_ZEROBYTES (0 : Byte) ++ pt).length))
      crypto_secretbox_ZEROBYTES pt.length = some pt := by
    rw [bufRead_some _ _ _ (by
      rw [hv4len]
      simp only [crypto_secretbox_ZEROBYTES]
      omega)]
    rw [List.append_assoc, drop_app _ (by simp), take_app _ rfl]
  have hScat : nacl_scatter pt pt.length dest = some pt := by
    rw [nacl_scatter_complete dest pt pt.length hdest hbase hcap, List.take_length]
  simp only [nacl_mrecvl, hiol, heq, hTake, hWr, if_neg hEM, hN, hclen, hMemset,
    hcopy, hMid, hM2, hCB, hOpen, Nat.add_sub_cancel, hPm, hSrc, hScat]
  exact ⟨trivial, trivial, hkey, hs, hmem,
    Or.inr ⟨_, _, rfl, rfl, hv4len.trans hl1, hv3len.trans hl2⟩, hmono, trivial⟩

/-- C1: for every plaintext of length n with 0 ≤ n ≤ max (the destination
capacity; bounded by the address space), sending the plaintext through the
encrypted socket's send path and then receiving the resulting wire message
through the receive path with the same key returns exactly the original
plaintext bytes and reports its length n. -/
theorem c1_roundtrip (sA sB : NaclSock) (msg : List (List Byte)) (dest : List Chunk)
    (nonce : List Byte) (sres : CRes Unit)
    (hA : sA.wf) (hB : sB.wf) (hkeys : sB.key = sA.key)
    (hmsg : msg ≠ []) (hdest : dest ≠ []) (hbase : ∀ c ∈ dest, c.hasBase = true)
    (hnonce : nonce.length = crypto_secretbox_NONCEBYTES)
    (hcap : msg.flatten.length ≤ (dest.map Chunk.len).sum)
    (hbig : msg.flatten.length + 40 < 2 ^ 64) :
    ∃ w, (nacl_msendl sA msg true true (.ok nonce) sres).sent = some w ∧
      (nacl_mrecvl sB dest true true (.ok w)).result = .ok msg.flatten.length ∧
      (nacl_mrecvl sB dest true true (.ok w)).delivered = some msg.flatten := by
  obtain ⟨hsent, -⟩ := nacl_msendl_ok sA msg nonce sres hA hmsg hnonce
  have h := nacl_mrecvl_ok sB dest nonce msg.flatten hB hdest hbase hnonce hcap hbig
  rw [hkeys] at h
  exact ⟨naclWire sA.key nonce msg.flatten, hsent, h.1, h.2.1⟩

/-- C1 witness: the spec's concrete scenario (§8) — all-zero 32-byte key,
4-byte plaintext `"ping"`, one destination chunk of capacity 4: the send
path produces a wire message whose receive returns 4 and delivers
`"ping"`. -/
theorem c1_roundtrip_witness :
    ∃ w, (nacl_msendl sock0 [ping] true true (.ok nonce0) (.ok ())).sent = some w ∧
      (nacl_mrecvl sock0 [⟨4, true⟩] true true (.ok w)).result = .ok 4 ∧
      (nacl_mrecvl sock0 [⟨4, true⟩] true true (.ok w)).delivered = some ping := by
  have h := c1_roundtrip sock0 sock0 [ping] [⟨4, true⟩] nonce0 (.ok ())
    (Or.inl ⟨rfl, rfl, rfl⟩) (Or.inl ⟨rfl, rfl, rfl⟩) rfl
    (by decide) (by decide) (by decide) (by decide) (by decide) (by decide)
  simpa using h

/-- C2: a successful send transmits exactly one wire message laid out as
the NONCE_SIZE-byte nonce followed by the ciphertext with the primitive's
leading zero region stripped, of total length NONCE_SIZE + L + TAG_SIZE
(TAG_SIZE = ZEROBYTES - BOXZEROBYTES). -/
theorem c2_wire_layout (o : NaclSock) (msg : List (List Byte)) (nonce : List Byte)
    (sres : CRes Unit) (hwf : o.wf) (hmsg : msg ≠ [])
    (hnonce : nonce.length = crypto_secretbox_NONCEBYTES) :
    ∃ w, (nacl_msendl o msg true true (.ok nonce) sres).sent = some w ∧
      w = nonce ++ (crypto_secretbox (List.replicate crypto_secretbox_ZEROBYTES 0 ++
        msg.flatten) nonce o.key).drop crypto_secretbox_BOXZEROBYTES ∧
      w.length = crypto_secretbox_NONCEBYTES + msg.flatten.length +
        (crypto_secretbox_ZEROBYTES - crypto_secretbox_BOXZEROBYTES) :=
  ⟨naclWire o.key nonce msg.flatten,
    (nacl_msendl_ok o msg nonce sres hwf hmsg hnonce).1, rfl,
    naclWire_length o.key nonce msg.flatten hnonce⟩

/-- C2 witness: with NONCE_SIZE = 24 and TAG_SIZE = 16, the 4-byte
plaintext `"ping"` produces a 44-byte wire message. -/
theorem c2_wire_layout_witness :
    ∃ w, (nacl_msendl sock0 [ping] true true (.ok nonce0) (.ok ())).sent = some w ∧
      w = nonce0 ++ (crypto_secretbox (List.replicate crypto_secretbox_ZEROBYTES 0 ++
        [ping].flatten) nonce0 sock0.key).drop crypto_secretbox_BOXZEROBYTES ∧
      w.length = 44 := by
  obtain ⟨w, hs, hw, hl⟩ := c2_wire_layout sock0 [ping] nonce0 (.ok ())
    (Or.inl ⟨rfl, rfl, rfl⟩) (by decide) (by decide)
  exact ⟨w, hs, hw, by rw [hl]; decide⟩

/-- C4: every send places the freshly generated NONCE_SIZE-byte nonce at
the start of the wire message; two consecutive sends of the identical
plaintext on the same socket in which the random source returns different
nonces produce different wire byte sequences. -/
theorem c4_nonce_freshness (s : NaclSock) (msg : List (List Byte))
    (n1 n2 : List Byte) (r1 r2 : CRes Unit)
    (hwf : s.wf) (hmsg : msg ≠ [])
    (hn1 : n1.length = crypto_secretbox_NONCEBYTES)
    (hn2 : n2.length = crypto_secretbox_NONCEBYTES) (hne : n1 ≠ n2) :
    ∃ w1 w2,
      (nacl_msendl s msg true true (.ok n1) r1).sent = some w1 ∧
      (nacl_msendl (nacl_msendl s msg true true (.ok n1) r1).sock msg true true
        (.ok n2) r2).sent = some w2 ∧
      w1.take crypto_secretbox_NONCEBYTES = n1 ∧
      w2.take crypto_secretbox_NONCEBYTES = n2 ∧ w1 ≠ w2 := by
  obtain ⟨hs1, -, hk1, -, -, hwf1, -⟩ := nacl_msendl_ok s msg n1 r1 hwf hmsg hn1
  obtain ⟨hs2, -⟩ := nacl_msendl_ok _ msg n2 r2 hwf1 hmsg hn2
  refine ⟨_, _, hs1, hs2, naclWire_take _ _ _ hn1, naclWire_take _ _ _ hn2, ?_⟩
  intro hcontra
  apply hne
  calc n1 = (naclWire s.key n1 msg.flatten).take crypto_secretbox_NONCEBYTES :=
        (naclWire_take _ _ _ hn1).symm
    _ = (naclWire (nacl_msendl s msg true true (.ok n1) r1).sock.key n2
        msg.flatten).take crypto_secretbox_NONCEBYTES := by rw [hcontra]
    _ = n2 := naclWire_take _ _ _ hn2

/-- C4 witness: two concrete sends of `"ping"` on the fresh socket with the
two distinct concrete nonces yield wire messages starting with the
respective nonces and differing from each other. -/
theorem c4_nonce_freshness_witness :
    ∃ w1 w2,
      (nacl_msendl sock0 [ping] true true (.ok nonce0) (.ok ())).sent = some w1 ∧
      (nacl_msendl (nacl_msendl sock0 [ping] true true (.ok nonce0) (.ok ())).sock
        [ping] true true (.ok nonce1) (.ok ())).sent = some w2 ∧
      w1.take crypto_secretbox_NONCEBYTES = nonce0 ∧
      w2.take crypto_secretbox_NONCEBYTES = nonce1 ∧ w1 ≠ w2 :=
  c4_nonce_freshness sock0 [ping] nonce0 nonce1 (.ok ()) (.ok ())
    (Or.inl ⟨rfl, rfl, rfl⟩) (by decide) (by decide) (by decide) (by decide)

/-- C5 counterexample: the recorded buffer capacity is not grow-only across
allocation-failure paths.  A send of a 2-byte message whose first `realloc`
fails records `buflen = 58` while leaving `buf1 = NULL`; a following send of
a 1-byte message re-triggers the growth branch (because `buf1` is NULL) and
records `buflen = 57` — a decrease. -/
theorem c5_counterexample :
    (nacl_msendl (nacl_msendl sock0 [[0, 0]] false false (.ok nonce0) (.ok ())).sock
      [[0]] true true (.ok nonce0) (.ok ())).sock.buflen <
    (nacl_msendl sock0 [[0, 0]] false false (.ok nonce0) (.ok ())).sock.buflen := by
  decide

/-- C5 amended: provided every allocation succeeds, the buffer-growth step
of each send/receive call succeeds, leaves both scratch buffers allocated
with capacity at least the required length before any crypto primitive
executes, keeps the socket well formed, and never decreases the recorded
capacity. -/
theorem c5_growth_invariant (o : NaclSock) (len : Nat) (hwf : o.wf) :
    (nacl_resizebufs o len true true).2 = true ∧
    (nacl_resizebufs o len true true).1.wf ∧
    o.buflen ≤ (nacl_resizebufs o len true true).1.buflen ∧
    len ≤ (nacl_resizebufs o len true true).1.buflen ∧
    (∃ b1, (nacl_resizebufs o len true true).1.buf1 = some b1 ∧ len ≤ b1.length) ∧
    (∃ b2, (nacl_resizebufs o len true true).1.buf2 = some b2 ∧ len ≤ b2.length) := by
  obtain ⟨o1, b1, b2, heq, hb1, hb2, hl1, hl2, hreq, hmono, -, -, -⟩ :=
    nacl_resizebufs_ok o len hwf
  rw [heq]
  exact ⟨rfl, Or.inr ⟨b1, b2, hb1, hb2, hl1, hl2⟩, hmono, hreq,
    ⟨b1, hb1, by omega⟩, ⟨b2, hb2, by omega⟩⟩

/-- C5 witness: growing the fresh socket's buffers to 3 bytes succeeds and
guarantees the requested capacity. -/
theorem c5_growth_invariant_witness :
    (nacl_resizebufs sock0 3 true true).2 = true ∧
    3 ≤ (nacl_resizebufs sock0 3 true true).1.buflen := by
  have h := c5_growth_invariant sock0 3 (Or.inl ⟨rfl, rfl, rfl⟩)
  exact ⟨h.1, h.2.2.2.1⟩

/-- C6: `src/nacl.c` line 187 assigns the return code of `nacl_resizebufs`
but never checks it — when the buffer-growth step fails, the receive call
still invokes `mrecv` on the underlying transport, handing it a NULL
scratch buffer (undefined behaviour), instead of failing with ENOMEM. -/
theorem c6_recv_ignores_resize_failure :
    (nacl_mrecvl sock0 [⟨1, true⟩] false false
      (.ok (List.replicate 41 0))).touched = true ∧
    (nacl_mrecvl sock0 [⟨1, true⟩] false false
      (.ok (List.replicate 41 0))).result = .crash := by
  decide

/-- C7: when `hmake` fails, `nacl_attach_mem`'s `error2` path executes
`free(obj)` on caller-supplied storage; through `nacl_attach` the same
storage is then freed a second time. -/
theorem c7_attach_frees_caller_storage :
    (nacl_attach_mem false false .caller true (.error ENFILE) (.ok 7)).events =
      [.freeStorage .caller] ∧
    (nacl_attach true true (.error ENFILE) (.ok 7)).events =
      [.freeStorage .selfAlloc, .freeStorage .selfAlloc] ∧
    (nacl_attach_mem true false .caller true (.ok 5) (.ok 7)).events =
      [.freeUninitPtr] := by
  decide

/-- C8 counterexample: a send that fails with a non-fatal transport error
(timeout) does not leave the scratch buffers unchanged — the recorded
capacity grows from 0 to 57 and both buffers are allocated and
overwritten. -/
theorem c8_counterexample :
    (nacl_msendl sock0 [[0]] true true (.ok nonce0) (.err ETIMEDOUT)).result =
      .err ETIMEDOUT ∧
    (nacl_msendl sock0 [[0]] true true (.ok nonce0) (.err ETIMEDOUT)).sock ≠ sock0 ∧
    (nacl_msendl sock0 [[0]] true true (.ok nonce0) (.err ETIMEDOUT)).sock.buflen ≠
      sock0.buflen := by
  decide

/-- Characterization of a receive whose allocations succeed but whose
transport fails (for example a timeout) before delivering a message: the
transport error is propagated, the key and identity fields are untouched,
the socket stays well formed and its recorded capacity never decreases. -/
theorem nacl_mrecvl_err (o : NaclSock) (dest : List Chunk) (e : Nat)
    (hwf : o.wf) (hdest : dest ≠ []) :
    (nacl_mrecvl o dest true true (.err e)).result = .err e ∧
    (nacl_mrecvl o dest true true (.err e)).sock.key = o.key ∧
    (nacl_mrecvl o dest true true (.err e)).sock.s = o.s ∧
    (nacl_mrecvl o dest true true (.err e)).sock.mem = o.mem ∧
    (nacl_mrecvl o dest true true (.err e)).sock.wf ∧
    o.buflen ≤ (nacl_mrecvl o dest true true (.err e)).sock.buflen := by
  obtain ⟨o1, b1, b2, heq, hb1, hb2, hl1, hl2, hreq, hmono, hkey, hs, hmem⟩ :=
    nacl_resizebufs_ok o (NACL_EXTRABYTES + (dest.map Chunk.len).sum) hwf
  have hempty : dest.isEmpty = false := by
    cases dest with
    | nil => exact absurd rfl hdest
    | cons a l => rfl
  have hiol : iol_check_dest dest = some ((dest.map Chunk.len).sum) := by
    unfold iol_check_dest
    rw [if_neg (by simp [hempty])]
  simp only [nacl_mrecvl, hiol, heq]
  exact ⟨trivial, hkey, hs, hmem, Or.inr ⟨b1, b2, hb1, hb2, hl1, hl2⟩, hmono⟩

/-- C8 amended: a send or receive that fails with a non-fatal transport
error reports that error and leaves the key unchanged and the socket well
formed; the scratch buffers may grow and their contents be overwritten,
but this is unobservable: after either kind of failed call, a subsequent
send (of any message, with any nonce) produces the same result and
transmits the same bytes as it would have from the pre-failure state, and
a subsequent receive of a validly framed wire message returns the same
result and delivers the same bytes. -/
theorem c8_failed_call_frame (o : NaclSock) (msg msg2 : List (List Byte))
    (dest : List Chunk) (nonce nonce2 pt : List Byte) (e e2 : Nat) (r2 : CRes Unit)
    (hwf : o.wf) (hmsg : msg ≠ []) (hmsg2 : msg2 ≠ []) (hdest : dest ≠ [])
    (hbase : ∀ c ∈ dest, c.hasBase = true)
    (hn : nonce.length = crypto_secretbox_NONCEBYTES)
    (hn2 : nonce2.length = crypto_secretbox_NONCEBYTES)
    (hcap : pt.length ≤ (dest.map Chunk.len).sum)
    (hbig : pt.length + 40 < 2 ^ 64) :
    (nacl_msendl o msg true true (.ok nonce) (.err e)).result = .err e ∧
    (nacl_msendl o msg true true (.ok nonce) (.err e)).sock.key = o.key ∧
    (nacl_msendl o msg true true (.ok nonce) (.err e)).sock.wf ∧
    (nacl_msendl (nacl_msendl o msg true true (.ok nonce) (.err e)).sock
        msg2 true true (.ok nonce2) r2).result =
      (nacl_msendl o msg2 true true (.ok nonce2) r2).result ∧
    (nacl_msendl (nacl_msendl o msg true true (.ok nonce) (.err e)).sock
        msg2 true true (.ok nonce2) r2).sent =
      (nacl_msendl o msg2 true true (.ok nonce2) r2).sent ∧
    (nacl_mrecvl (nacl_msendl o msg true true (.ok nonce) (.err e)).sock
        dest true true (.ok (naclWire o.key nonce2 pt))).result =
      (nacl_mrecvl o dest true true (.ok (naclWire o.key nonce2 pt))).result ∧
    (nacl_mrecvl (nacl_msendl o msg true true (.ok nonce) (.err e)).sock
        dest true true (.ok (naclWire o.key nonce2 pt))).delivered =
      (nacl_mrecvl o dest true true (.ok (naclWire o.key nonce2 pt))).delivered ∧
    (nacl_mrecvl o dest true true (.err e2)).result = .err e2 ∧
    (nacl_mrecvl o dest true true (.err e2)).sock.key = o.key ∧
    (nacl_mrecvl o dest true true (.err e2)).sock.wf ∧
    (nacl_msendl (nacl_mrecvl o dest true true (.err e2)).sock
        msg2 true true (.ok nonce2) r2).result =
      (nacl_msendl o msg2 true true (.ok nonce2) r2).result ∧
    (nacl_msendl (nacl_mrecvl o dest true true (.err e2)).sock
        msg2 true true (.ok nonce2) r2).sent =
      (nacl_msendl o msg2 true true (.ok nonce2) r2).sent ∧
    (nacl_mrecvl (nacl_mrecvl o dest true true (.err e2)).sock
        dest true true (.ok (naclWire o.key nonce2 pt))).result =
      (nacl_mrecvl o dest true true (.ok (naclWire o.key nonce2 pt))).result ∧
    (nacl_mrecvl (nacl_mrecvl o dest true true (.err e2)).sock
        dest true true (.ok (naclWire o.key nonce2 pt))).delivered =
      (nacl_mrecvl o dest true true (.ok (naclWire o.key nonce2 pt))).delivered := by
  obtain ⟨-, hres, hkeyF, -, -, hwfF, -⟩ := nacl_msendl_ok o msg nonce (.err e) hwf hmsg hn
  obtain ⟨hs2, hr2, -⟩ := nacl_msendl_ok (nacl_msendl o msg true true (.ok nonce)
    (.err e)).sock msg2 nonce2 r2 hwfF hmsg2 hn2
  obtain ⟨hs2o, hr2o, -⟩ := nacl_msendl_ok o msg2 nonce2 r2 hwf hmsg2 hn2
  have hrecvF := nacl_mrecvl_ok (nacl_msendl o msg true true (.ok nonce)
    (.err e)).sock dest nonce2 pt hwfF hdest hbase hn2 hcap hbig
  rw [hkeyF] at hrecvF
  have hrecvO := nacl_mrecvl_ok o dest nonce2 pt hwf hdest hbase hn2 hcap hbig
  obtain ⟨hRres, hRkey, -, -, hRwf, -⟩ := nacl_mrecvl_err o dest e2 hwf hdest
  obtain ⟨hs3, hr3, -⟩ := nacl_msendl_ok (nacl_mrecvl o dest true true
    (.err e2)).sock msg2 nonce2 r2 hRwf hmsg2 hn2
  have hrecvR := nacl_mrecvl_ok (nacl_mrecvl o dest true true (.err e2)).sock
    dest nonce2 pt hRwf hdest hbase hn2 hcap hbig
  rw [hRkey] at hrecvR
  refine ⟨hres, hkeyF, hwfF, ?_, ?_, ?_, ?_, hRres, hRkey, hRwf, ?_, ?_, ?_, ?_⟩
  · rw [hr2, hr2o]
  · rw [hs2, hs2o, hkeyF]
  · rw [hrecvF.1, hrecvO.1]
  · rw [hrecvF.2.1, hrecvO.2.1]
  · rw [hr3, hr2o]
  · rw [hs3, hs2o, hRkey]
  · rw [hrecvR.1, hrecvO.1]
  · rw [hrecvR.2.1, hrecvO.2.1]

/-- C8 witness: on the fresh socket, a timed-out send of a 1-byte message
and a timed-out receive each report the timeout and leave the key
untouched, and after either failure a send of `"ping"` transmits the same
bytes as from the fresh socket. -/
theorem c8_failed_call_frame_witness :
    (nacl_msendl sock0 [[0]] true true (.ok nonce0) (.err ETIMEDOUT)).result =
      .err ETIMEDOUT ∧
    (nacl_msendl sock0 [[0]] true true (.ok nonce0) (.err ETIMEDOUT)).sock.key =
      sock0.key ∧
    (nacl_msendl (nacl_msendl sock0 [[0]] true true (.ok nonce0)
        (.err ETIMEDOUT)).sock [ping] true true (.ok nonce1) (.ok ())).sent =
      (nacl_msendl sock0 [ping] true true (.ok nonce1) (.ok ())).sent ∧
    (nacl_mrecvl sock0 [⟨4, true⟩] true true (.err ETIMEDOUT)).result =
      .err ETIMEDOUT ∧
    (nacl_mrecvl sock0 [⟨4, true⟩] true true (.err ETIMEDOUT)).sock.key =
      sock0.key ∧
    (nacl_msendl (nacl_mrecvl sock0 [⟨4, true⟩] true true (.err ETIMEDOUT)).sock
        [ping] true true (.ok nonce1) (.ok ())).sent =
      (nacl_msendl sock0 [ping] true true (.ok nonce1) (.ok ())).sent := by
  obtain ⟨a1, a2, -, -, a5, -, -, b1, b2, -, -, b5, -, -⟩ :=
    c8_failed_call_frame sock0 [[0]] [ping] [⟨4, true⟩] nonce0 nonce1 ping
      ETIMEDOUT ETIMEDOUT (.ok ()) (Or.inl ⟨rfl, rfl, rfl⟩) (by decide) (by decide)
      (by decide) (by decide) (by decide) (by decide) (by decide) (by decide)
  exact ⟨a1, a2, a5, b1, b2, b5⟩

/-- C9 counterexample: detaching a handle of another layer fails with the
capability query's NotSupported error, not with InvalidArgument. -/
theorem c9_counterexample :
    (nacl_detach (some .otherLayer)).result = .error ENOTSUP ∧ ENOTSUP ≠ EINVAL := by
  decide

/-- C9 amended: for every handle that does not belong to the
encrypted-socket layer, detach fails with the capability query's error —
NotSupported for a live handle of another layer, BadHandle for an invalid
handle — and modifies nothing (frees neither buffers nor storage). -/
theorem c9_detach_foreign (h : Option LayerObj)
    (hno : ∀ obj, h ≠ some (.naclObj obj)) :
    ((nacl_detach h).result = .error ENOTSUP ∨
      (nacl_detach h).result = .error EBADF) ∧
    (nacl_detach h).freedBuf1 = false ∧
    (nacl_detach h).freedBuf2 = false ∧
    (nacl_detach h).freedStorage = false := by
  match h with
  | none => exact ⟨Or.inr rfl, rfl, rfl, rfl⟩
  | some .otherLayer => exact ⟨Or.inl rfl, rfl, rfl, rfl⟩
  | some (.naclObj obj) => exact absurd rfl (hno obj)

/-- C9 witness: detaching a live handle of another layer. -/
theorem c9_detach_foreign_witness :
    ((nacl_detach (some .otherLayer)).result = .error ENOTSUP ∨
      (nacl_detach (some .otherLayer)).result = .error EBADF) ∧
    (nacl_detach (some .otherLayer)).freedBuf1 = false ∧
    (nacl_detach (some .otherLayer)).freedBuf2 = false ∧
    (nacl_detach (some .otherLayer)).freedStorage = false :=
  c9_detach_foreign (some .otherLayer) (fun obj hh => by cases hh)

/-- C10: a delivered wire message smaller than NONCE_SIZE bytes makes the
ciphertext-length computation `clen = BOXZEROBYTES + (sz - NONCEBYTES)`
wrap in `size_t` arithmetic; the subsequent `memcpy` of `clen -
BOXZEROBYTES` bytes overruns the scratch buffers (undefined behaviour)
instead of failing cleanly.  Shown on the empty wire message. -/
theorem c10_undersized_wire_underflow :
    (nacl_mrecvl sock0 [⟨4, true⟩] true true (.ok [])).result = .crash ∧
    (nacl_mrecvl sock0 [⟨4, true⟩] true true
      (.ok (List.replicate 8 0))).result = .crash := by
  decide

/-- C3: the receive path performs no BufferTooSmall check before
scattering.  When authenticated decryption succeeds with a plaintext
(here 1 byte) longer than the destination capacity (here 0), the scatter
loop walks off the destination iolist — a NULL dereference / out-of-bounds
write (undefined behaviour) — instead of failing with BufferTooSmall. -/
theorem c3_no_dest_bound_check :
    (nacl_mrecvl sock0 [⟨0, true⟩] true true
      (.ok (naclWire sock0.key nonce0 [7]))).result = .crash := by
  decide
